import Mathlib

/-!
# RepeatCommand (wpilibNewCommands, `frc2/command/RepeatCommand.cpp`)

A shallow embedding of the repeat decorator and of the part of the command
interface it calls, followed by theorems about the restart state machine,
the delegated queries and the composition guard of the constructor.

Method calls are state transformers on the decorator object.  Virtual calls
made through `m_command` are additionally recorded, in call order, in a log
that is carried next to the C++ members, so that statements about which child
hooks a decorator method invokes can be written down.
-/

namespace frc2

/-! ## The command interface -/

/-- Modelled from the spec: the enumeration `Command::InterruptionBehavior`
(declared in `Command.h`, not among the sources), with the two values
of the data model, CancelSelf and CancelIncoming. -/
inductive InterruptionBehavior where
  | kCancelSelf
  | kCancelIncoming
  deriving DecidableEq, Repr

/-- Modelled from the spec: the data every command carries according to the
data model (the class `Command` is declared in `Command.h`, not among the
sources): a set of required resources (resource handles are natural
numbers here), a name, the `composed` flag, and in `state` whatever else the
concrete command class stores. -/
structure Command (σ : Type) where
  m_requirements : Finset Nat
  m_name : String
  m_isComposed : Bool
  state : σ

/-- Modelled from the spec: the overridable operations of a command (the
virtual member functions of `Command.h`).  Each lifecycle hook may rewrite the
whole command object; `IsFinished` is a non-const member function and so
returns the object next to its answer; the two queries are const. -/
structure CommandHooks (σ : Type) where
  Initialize : Command σ → Command σ
  Execute : Command σ → Command σ
  IsFinished : Command σ → Bool × Command σ
  End : Bool → Command σ → Command σ
  RunsWhenDisabled : Command σ → Bool
  GetInterruptionBehavior : Command σ → InterruptionBehavior

/-- Modelled from the spec: `Command::GetRequirements`, the accessor of the requirement set. -/
def Command.GetRequirements {σ : Type} (c : Command σ) : Finset Nat :=
  c.m_requirements

/-- Modelled from the spec: `Command::GetName`, the accessor of the name. -/
def Command.GetName {σ : Type} (c : Command σ) : String :=
  c.m_name

/-- Modelled from the spec: `Command::IsComposed`, the accessor of the `composed` flag. -/
def Command.IsComposed {σ : Type} (c : Command σ) : Bool :=
  c.m_isComposed

/-- Modelled from the spec: `Command::SetComposed`, the setter of the `composed` flag. -/
def Command.SetComposed {σ : Type} (c : Command σ) (isComposed : Bool) : Command σ :=
  { c with m_isComposed := isComposed }

/-! ## The log of child hook calls -/

/-- One call of a lifecycle hook on the child.  `IsFinished` records the
answer the child gave, `End` the argument it was called with. -/
inductive HookCall where
  | Initialize
  | Execute
  | IsFinished (result : Bool)
  | End (interrupted : Bool)
  deriving DecidableEq, Repr

/-! ## The decorator object -/

/-- The object `RepeatCommand`.  `m_command` and `m_ended` are its own members;
`m_requirements` and `m_name` are the members it inherits as a command.
`calls` is not a C++ member: it is the log of the lifecycle hooks invoked on
`m_command` so far, oldest first. -/
structure RepeatCommand (σ : Type) where
  m_command : Command σ
  m_ended : Bool
  m_requirements : Finset Nat
  m_name : String
  calls : List HookCall

namespace RepeatCommand

variable {σ : Type}

/-- The statement `m_command->Initialize();`. -/
def callInitialize (v : CommandHooks σ) (self : RepeatCommand σ) : RepeatCommand σ :=
  { self with
    m_command := v.Initialize self.m_command
    calls := self.calls ++ [HookCall.Initialize] }

/-- The statement `m_command->Execute();`. -/
def callExecute (v : CommandHooks σ) (self : RepeatCommand σ) : RepeatCommand σ :=
  { self with
    m_command := v.Execute self.m_command
    calls := self.calls ++ [HookCall.Execute] }

/-- The expression `m_command->IsFinished()`: the answer and the object afterwards. -/
def callIsFinished (v : CommandHooks σ) (self : RepeatCommand σ) : Bool × RepeatCommand σ :=
  ((v.IsFinished self.m_command).1,
   { self with
     m_command := (v.IsFinished self.m_command).2
     calls := self.calls ++ [HookCall.IsFinished (v.IsFinished self.m_command).1] })

/-- The statement `m_command->End(interrupted);`. -/
def callEnd (v : CommandHooks σ) (interrupted : Bool) (self : RepeatCommand σ) :
    RepeatCommand σ :=
  { self with
    m_command := v.End interrupted self.m_command
    calls := self.calls ++ [HookCall.End interrupted] }

/-- `void RepeatCommand::Initialize()`. -/
def Initialize (v : CommandHooks σ) (self : RepeatCommand σ) : RepeatCommand σ :=
  let self := { self with m_ended := false }
  callInitialize v self

/-- `void RepeatCommand::Execute()`. -/
def Execute (v : CommandHooks σ) (self : RepeatCommand σ) : RepeatCommand σ :=
  let self :=
    if self.m_ended then
      let self := { self with m_ended := false }
      callInitialize v self
    else self
  let self := callExecute v self
  let r := callIsFinished v self
  let self := r.2
  if r.1 then
    -- restart command
    let self := callEnd v false self
    { self with m_ended := true }
  else self

/-- `bool RepeatCommand::IsFinished()`: the returned value and the object afterwards. -/
def IsFinished (self : RepeatCommand σ) : Bool × RepeatCommand σ :=
  (false, self)

/-- `void RepeatCommand::End(bool interrupted)`. -/
def End (v : CommandHooks σ) (interrupted : Bool) (self : RepeatCommand σ) :
    RepeatCommand σ :=
  callEnd v interrupted self

/-- `bool RepeatCommand::RunsWhenDisabled() const`: the returned value and the
object afterwards. -/
def RunsWhenDisabled (v : CommandHooks σ) (self : RepeatCommand σ) :
    Bool × RepeatCommand σ :=
  (v.RunsWhenDisabled self.m_command, self)

/-- `Command::InterruptionBehavior RepeatCommand::GetInterruptionBehavior() const`:
the returned value and the object afterwards. -/
def GetInterruptionBehavior (v : CommandHooks σ) (self : RepeatCommand σ) :
    InterruptionBehavior × RepeatCommand σ :=
  (v.GetInterruptionBehavior self.m_command, self)

/-- Modelled from the spec: `AddRequirements` of the command base class (declared
in `CommandBase.h`, not among the sources): the given resources are
inserted into the object's own requirement set. -/
def AddRequirements (self : RepeatCommand σ) (requirements : Finset Nat) : RepeatCommand σ :=
  { self with m_requirements := self.m_requirements ∪ requirements }

/-- Modelled from the spec: `GetRequirements` of the command base class, as the
decorator inherits it (declared in `CommandBase.h`, not among the
sources): the object's own requirement set. -/
def GetRequirements (self : RepeatCommand σ) : Finset Nat :=
  self.m_requirements

/-- Modelled from the spec: `SetName` of the command base class (declared in
`CommandBase.h`, not among the sources): the object's name is replaced. -/
def SetName (self : RepeatCommand σ) (name : String) : RepeatCommand σ :=
  { self with m_name := name }

end RepeatCommand

/-! ## Construction -/

/-- Modelled from the spec: the error `CompositionError`, raised when a command
that is already composed is supplied as a child. -/
inductive CompositionError where
  | alreadyComposed
  deriving DecidableEq, Repr

/-- Modelled from the spec: `CommandScheduler::RequireUngrouped` (defined in
`CommandScheduler.cpp`, not among the sources), the check that a
to-be-owned child is not already composed, failing with `CompositionError`
otherwise.  The state of the scheduler singleton, of a type `Sched` left open,
is handed back as the check leaves it. -/
def CommandScheduler.RequireUngrouped {Sched σ : Type} (sched : Sched) (command : Command σ) :
    Except CompositionError Sched :=
  if command.IsComposed then Except.error CompositionError.alreadyComposed
  else Except.ok sched

/-- What a constructor call leaves behind: the scheduler state, the content of
the caller's `std::unique_ptr<Command>` (`none` once it has been moved from),
and either the exception that left the constructor or the constructed object. -/
structure Constructed (Sched σ : Type) where
  scheduler : Sched
  command : Option (Command σ)
  result : Except CompositionError (RepeatCommand σ)

/-- `RepeatCommand::RepeatCommand(std::unique_ptr<Command>&& command)`.
`sched` is the state of `CommandScheduler::GetInstance()`.  `ended` is the value
of the member `m_ended` when the constructor body is entered (its initialiser
is in `RepeatCommand.h`, not among the sources; the body does not assign
it).  The inherited requirement set is empty and the inherited name is empty
when the body is entered; the log of child hook calls starts empty. -/
def RepeatCommand.new {Sched σ : Type} (sched : Sched) (command : Command σ)
    (ended : Bool) : Constructed Sched σ :=
  match CommandScheduler.RequireUngrouped sched command with
  | Except.error e => { scheduler := sched, command := some command, result := Except.error e }
  | Except.ok sched =>
    let m_command := command
    let m_command := m_command.SetComposed true
    let self : RepeatCommand σ :=
      { m_command := m_command, m_ended := ended, m_requirements := ∅, m_name := "", calls := [] }
    let self := self.AddRequirements self.m_command.GetRequirements
    let self := self.SetName ("Repeat(" ++ self.m_command.GetName ++ ")")
    { scheduler := sched, command := none, result := Except.ok self }

/-! ## Driving the decorator -/

/-- The child hooks a step `f` invokes when it is run on `self`: what `f`
appends to the log. -/
def hooksDuring {σ : Type} (f : RepeatCommand σ → RepeatCommand σ) (self : RepeatCommand σ) :
    List HookCall :=
  (f self).calls.drop self.calls.length

/-- One activation as the scheduler drives it: `Initialize`, then `n` calls of
`Execute`. -/
def activation {σ : Type} (v : CommandHooks σ) (self : RepeatCommand σ) : Nat → RepeatCommand σ
  | 0 => RepeatCommand.Initialize v self
  | n + 1 => RepeatCommand.Execute v (activation v self n)

/-- The child hooks invoked on tick `N` of an activation started on `self`,
ticks counted from 1.  Tick 1 is the decorator's `Initialize` followed by its
first `Execute`; tick `N + 2` is the `Execute` call number `N + 2`. -/
def tickHooks {σ : Type} (v : CommandHooks σ) (self : RepeatCommand σ) : Nat → List HookCall
  | 0 => []
  | 1 => hooksDuring (fun s => RepeatCommand.Execute v (RepeatCommand.Initialize v s)) self
  | N + 2 => hooksDuring (RepeatCommand.Execute v) (activation v self (N + 1))

/-- What can happen to a constructed decorator: the scheduler calls one of its
member functions, or the child object changes by some `f` (the child adds a
requirement, is renamed, changes what it reports when queried). -/
inductive Action (σ : Type) where
  | Initialize
  | Execute
  | IsFinished
  | End (interrupted : Bool)
  | RunsWhenDisabled
  | GetInterruptionBehavior
  | childChanged (f : Command σ → Command σ)

/-- The decorator after one action. -/
def RepeatCommand.after {σ : Type} (v : CommandHooks σ) (self : RepeatCommand σ) :
    Action σ → RepeatCommand σ
  | Action.Initialize => RepeatCommand.Initialize v self
  | Action.Execute => RepeatCommand.Execute v self
  | Action.IsFinished => (RepeatCommand.IsFinished self).2
  | Action.End interrupted => RepeatCommand.End v interrupted self
  | Action.RunsWhenDisabled => (RepeatCommand.RunsWhenDisabled v self).2
  | Action.GetInterruptionBehavior => (RepeatCommand.GetInterruptionBehavior v self).2
  | Action.childChanged f => { self with m_command := f self.m_command }

/-- The decorator after a sequence of actions, first action first. -/
def RepeatCommand.afterAll {σ : Type} (v : CommandHooks σ) (self : RepeatCommand σ) :
    List (Action σ) → RepeatCommand σ
  | [] => self
  | a :: as => RepeatCommand.afterAll v (RepeatCommand.after v self a) as

/-- The answer the child gives to the `IsFinished` query made inside
`RepeatCommand::Execute` when that is run on `self`: the child is asked after
its `Execute`, which comes after its `Initialize` when `m_ended` was set. -/
def RepeatCommand.childFinishes {σ : Type} (v : CommandHooks σ) (self : RepeatCommand σ) : Bool :=
  (v.IsFinished
    (v.Execute (if self.m_ended then v.Initialize self.m_command else self.m_command))).1

/-- Whether a logged call is the completion query, as opposed to one of the
calls `Initialize`, `Execute`, `End` that make the child do something. -/
def HookCall.isQuery : HookCall → Bool
  | HookCall.IsFinished _ => true
  | _ => false

/-! ## Children used in the scenarios -/

/-- The child of the scenario: it counts its `Execute` calls since its last
`Initialize` in `state`, and `IsFinished` answers true exactly when that count
is `k`. -/
def countingChild (k : Nat) : CommandHooks Nat where
  Initialize c := { c with state := 0 }
  Execute c := { c with state := c.state + 1 }
  IsFinished c := (decide (c.state = k), c)
  End _ c := c
  RunsWhenDisabled _ := false
  GetInterruptionBehavior _ := InterruptionBehavior.kCancelSelf

/-- A command object for `countingChild`: it requires the resources 4 and 9,
is not composed, and its count is 0. -/
def countingCommand : Command Nat :=
  { m_requirements := {4, 9}, m_name := "child", m_isComposed := false, state := 0 }

/-- A decorator over `countingCommand`, as the constructor leaves it. -/
def countingRepeat : RepeatCommand Nat :=
  { m_command := countingCommand.SetComposed true, m_ended := false, m_requirements := {4, 9},
    m_name := "Repeat(child)", calls := [] }

/-! ## Further accessors and drivers -/

/-- Modelled from the spec: `GetName` of the command base class, as the decorator
inherits it (declared in `CommandBase.h`, not among the sources): the object's
own name. -/
def RepeatCommand.GetName {σ : Type} (self : RepeatCommand σ) : String :=
  self.m_name

/-- A sequence of activations as the scheduler drives them, one after the other
on the same decorator: each entry `(n, b)` is `Initialize`, then `n` calls of
`Execute`, then `End(b)`. -/
def activations {σ : Type} (v : CommandHooks σ) (self : RepeatCommand σ) :
    List (Nat × Bool) → RepeatCommand σ
  | [] => self
  | r :: rest => activations v (RepeatCommand.End v r.2 (activation v self r.1)) rest

/-- Whether the child is active after the logged calls, when it was `active`
before them: it is active after its `Initialize`, not active after its `End`,
and `Execute` and the completion query leave that as it is. -/
def activeAfter : Bool → List HookCall → Bool
  | active, [] => active
  | _, HookCall.Initialize :: rest => activeAfter true rest
  | active, HookCall.Execute :: rest => activeAfter active rest
  | active, HookCall.IsFinished _ :: rest => activeAfter active rest
  | _, HookCall.End _ :: rest => activeAfter false rest

/-- Whether, in the logged calls, every `Initialize` of the child comes when the
child is not active and every `Execute` of the child comes while it is active,
the child being `active` or not before the first logged call. -/
def startsAndStepsInOrder : Bool → List HookCall → Bool
  | _, [] => true
  | active, HookCall.Initialize :: rest => !active && startsAndStepsInOrder true rest
  | active, HookCall.Execute :: rest => active && startsAndStepsInOrder active rest
  | active, HookCall.IsFinished _ :: rest => startsAndStepsInOrder active rest
  | _, HookCall.End _ :: rest => startsAndStepsInOrder false rest

/-- Whether a logged call is a call of the child's `End`. -/
def HookCall.isEnd : HookCall → Bool
  | HookCall.End _ => true
  | _ => false

/-- For each call of the child's `Initialize` in the log, in order, the number
of calls of the child's `End` between it and the next call of `Initialize` (or
the end of the log). -/
def stopsPerStart : List HookCall → List Nat
  | [] => []
  | HookCall.Initialize :: rest =>
    (rest.takeWhile (fun h => decide (h ≠ HookCall.Initialize))).countP HookCall.isEnd ::
      stopsPerStart rest
  | _ :: rest => stopsPerStart rest

/-! ## Child hooks that may fail -/

/-- Modelled from the spec: a child whose `Initialize`, `Execute` and `End` may
fail (the hooks the error-handling design names).  Each of them hands back the
error that left the call, `some e`, or `none` when the call returned, next to
the child object as the call leaves it.  `IsFinished` is as in `CommandHooks`. -/
structure ThrowingHooks (ε σ : Type) where
  Initialize : Command σ → Option ε × Command σ
  Execute : Command σ → Option ε × Command σ
  IsFinished : Command σ → Bool × Command σ
  End : Bool → Command σ → Option ε × Command σ

/-- A child none of whose hooks fails, as a child whose hooks may fail. -/
def ThrowingHooks.ofTotal {ε σ : Type} (v : CommandHooks σ) : ThrowingHooks ε σ where
  Initialize c := (none, v.Initialize c)
  Execute c := (none, v.Execute c)
  IsFinished c := v.IsFinished c
  End b c := (none, v.End b c)

namespace RepeatCommand.Throwing

variable {ε σ : Type}

/-- Sequencing of statements in a function body without `try`: what follows
runs only when no error has left the statements before it; otherwise the error
leaves the function, with the object as it is at that point. -/
def andThen (first : Option ε × RepeatCommand σ)
    (next : RepeatCommand σ → Option ε × RepeatCommand σ) : Option ε × RepeatCommand σ :=
  match first.1 with
  | some e => (some e, first.2)
  | none => next first.2

/-- The statement `m_command->Initialize();` when the call may fail. -/
def callInitialize (v : ThrowingHooks ε σ) (self : RepeatCommand σ) :
    Option ε × RepeatCommand σ :=
  ((v.Initialize self.m_command).1,
   { self with
     m_command := (v.Initialize self.m_command).2
     calls := self.calls ++ [HookCall.Initialize] })

/-- The statement `m_command->Execute();` when the call may fail. -/
def callExecute (v : ThrowingHooks ε σ) (self : RepeatCommand σ) :
    Option ε × RepeatCommand σ :=
  ((v.Execute self.m_command).1,
   { self with
     m_command := (v.Execute self.m_command).2
     calls := self.calls ++ [HookCall.Execute] })

/-- The expression `m_command->IsFinished()`: the answer and the object afterwards. -/
def callIsFinished (v : ThrowingHooks ε σ) (self : RepeatCommand σ) :
    Bool × RepeatCommand σ :=
  ((v.IsFinished self.m_command).1,
   { self with
     m_command := (v.IsFinished self.m_command).2
     calls := self.calls ++ [HookCall.IsFinished (v.IsFinished self.m_command).1] })

/-- The statement `m_command->End(interrupted);` when the call may fail. -/
def callEnd (v : ThrowingHooks ε σ) (interrupted : Bool) (self : RepeatCommand σ) :
    Option ε × RepeatCommand σ :=
  ((v.End interrupted self.m_command).1,
   { self with
     m_command := (v.End interrupted self.m_command).2
     calls := self.calls ++ [HookCall.End interrupted] })

/-- `void RepeatCommand::Initialize()` over a child whose hooks may fail: the
error that left the call, if any, and the object afterwards. -/
def Initialize (v : ThrowingHooks ε σ) (self : RepeatCommand σ) : Option ε × RepeatCommand σ :=
  let self := { self with m_ended := false }
  callInitialize v self

/-- `void RepeatCommand::Execute()` over a child whose hooks may fail: the
error that left the call, if any, and the object afterwards. -/
def Execute (v : ThrowingHooks ε σ) (self : RepeatCommand σ) : Option ε × RepeatCommand σ :=
  andThen
    (if self.m_ended then
      let self := { self with m_ended := false }
      callInitialize v self
    else (none, self))
    fun self =>
  andThen (callExecute v self) fun self =>
  let r := callIsFinished v self
  let self := r.2
  if r.1 then
    -- restart command
    andThen (callEnd v false self) fun self =>
    (none, { self with m_ended := true })
  else (none, self)

/-- `void RepeatCommand::End(bool interrupted)` over a child whose hooks may
fail: the error that left the call, if any, and the object afterwards. -/
def End (v : ThrowingHooks ε σ) (interrupted : Bool) (self : RepeatCommand σ) :
    Option ε × RepeatCommand σ :=
  callEnd v interrupted self

end RepeatCommand.Throwing

/-- The `Initialize` of the faulty child: it resets the count, and fails with
"locked" when the count it finds is 7. -/
def faultyInitialize (c : Command Nat) : Option String × Command Nat :=
  (if c.state == 7 then some "locked" else none, { c with state := 0 })

/-- The `Execute` of the faulty child: it adds one to the count, and fails with
"jam" when the count it finds is 1. -/
def faultyExecute (c : Command Nat) : Option String × Command Nat :=
  (if c.state == 1 then some "jam" else none, { c with state := c.state + 1 })

/-- The `End` of the faulty child: it fails with "stuck" when it is called with
`interrupted = true`. -/
def faultyEnd (interrupted : Bool) (c : Command Nat) : Option String × Command Nat :=
  (if interrupted then some "stuck" else none, c)

/-- A child whose hooks may fail: it counts its `Execute` calls since its last
`Initialize` and answers the completion query with true at count 3. -/
def faultyChild : ThrowingHooks String Nat :=
  { Initialize := faultyInitialize
    Execute := faultyExecute
    IsFinished := fun c => (c.state == 3, c)
    End := faultyEnd }

end frc2

/-! ## Theorems -/

namespace frc2

open RepeatCommand

variable {σ : Type}

/-- The log after `Execute`: the old log, then `Initialize` if a restart was
pending, then `Execute` and the completion query, then `End false` if the child
reported completion. -/
theorem calls_Execute (v : CommandHooks σ) (self : RepeatCommand σ) :
    (Execute v self).calls =
      self.calls ++ ((if self.m_ended then [HookCall.Initialize] else []) ++
        [HookCall.Execute, HookCall.IsFinished (childFinishes v self)] ++
        (if childFinishes v self then [HookCall.End false] else [])) := by
  unfold Execute childFinishes callIsFinished callExecute callEnd callInitialize
  cases hE : self.m_ended <;> simp <;> split <;> simp_all

/-- The child hooks one `Execute` invokes. -/
theorem hooksDuring_Execute (v : CommandHooks σ) (self : RepeatCommand σ) :
    hooksDuring (Execute v) self =
      (if self.m_ended then [HookCall.Initialize] else []) ++
        [HookCall.Execute, HookCall.IsFinished (childFinishes v self)] ++
        (if childFinishes v self then [HookCall.End false] else []) := by
  unfold hooksDuring
  rw [calls_Execute, List.drop_left]

/-- After `Execute` a restart is pending exactly when the child reported completion. -/
theorem m_ended_Execute (v : CommandHooks σ) (self : RepeatCommand σ) :
    (Execute v self).m_ended = childFinishes v self := by
  unfold Execute childFinishes callIsFinished callExecute callEnd callInitialize
  cases hE : self.m_ended <;> simp <;> split <;> simp_all

/-- The child object after `Execute`. -/
theorem m_command_Execute (v : CommandHooks σ) (self : RepeatCommand σ) :
    (Execute v self).m_command =
      (if childFinishes v self then
        v.End false (v.IsFinished (v.Execute
          (if self.m_ended then v.Initialize self.m_command else self.m_command))).2
      else
        (v.IsFinished (v.Execute
          (if self.m_ended then v.Initialize self.m_command else self.m_command))).2) := by
  unfold Execute childFinishes callIsFinished callExecute callEnd callInitialize
  cases hE : self.m_ended <;> simp <;> split <;> simp_all

/-- The log after the decorator's `Initialize`. -/
theorem calls_Initialize (v : CommandHooks σ) (self : RepeatCommand σ) :
    (Initialize v self).calls = self.calls ++ [HookCall.Initialize] := rfl

/-- No restart is pending after the decorator's `Initialize`. -/
theorem m_ended_Initialize (v : CommandHooks σ) (self : RepeatCommand σ) :
    (Initialize v self).m_ended = false := rfl

/-- Tick 1 of an activation: the child's `Initialize`, then what the first
`Execute` invokes. -/
theorem tickHooks_one (v : CommandHooks σ) (self : RepeatCommand σ) :
    tickHooks v self 1 =
      [HookCall.Initialize, HookCall.Execute,
        HookCall.IsFinished (childFinishes v (Initialize v self))] ++
        (if childFinishes v (Initialize v self) then [HookCall.End false] else []) := by
  show hooksDuring (fun s => Execute v (Initialize v s)) self = _
  unfold hooksDuring
  rw [calls_Execute, calls_Initialize, m_ended_Initialize, List.append_assoc, List.drop_left]
  simp

/-- Tick `N + 2` of an activation is the `Execute` run on the state after tick `N + 1`. -/
theorem tickHooks_add_two (v : CommandHooks σ) (self : RepeatCommand σ) (N : Nat) :
    tickHooks v self (N + 2) = hooksDuring (Execute v) (activation v self (N + 1)) := rfl

/-- C1: in state Running (`m_ended = false`), when the child answers true to
the completion query made after its `Execute`, the child hooks that
`RepeatCommand::Execute` invokes are exactly `Execute`, `IsFinished` (answering
true), `End(false)`, in this order; that `End(false)` is the last child hook of
the call, so no child `Initialize` is invoked at all and none follows the stop;
and `m_ended` is true afterwards. -/
theorem C1_execute_running_child_finished (v : CommandHooks σ) (self : RepeatCommand σ)
    (hRunning : self.m_ended = false)
    (hFinished : (v.IsFinished (v.Execute self.m_command)).1 = true) :
    hooksDuring (Execute v) self =
        [HookCall.Execute, HookCall.IsFinished true, HookCall.End false] ∧
      (Execute v self).calls =
        self.calls ++ [HookCall.Execute, HookCall.IsFinished true, HookCall.End false] ∧
      (hooksDuring (Execute v) self).getLast? = some (HookCall.End false) ∧
      HookCall.Initialize ∉ hooksDuring (Execute v) self ∧
      (Execute v self).m_ended = true := by
  have hfin : childFinishes v self = true := by
    simp [childFinishes, hRunning, hFinished]
  have hH : hooksDuring (Execute v) self =
      [HookCall.Execute, HookCall.IsFinished true, HookCall.End false] := by
    rw [hooksDuring_Execute, hfin, hRunning]; rfl
  refine ⟨hH, ?_, ?_, ?_, ?_⟩
  · rw [calls_Execute, hfin, hRunning]; rfl
  · rw [hH]; rfl
  · rw [hH]; decide
  · rw [m_ended_Execute, hfin]

/-- C1 at a concrete input: the counting child with `k = 1`, in state Running. -/
theorem C1_execute_running_child_finished_witness :
    hooksDuring (Execute (countingChild 1)) countingRepeat =
        [HookCall.Execute, HookCall.IsFinished true, HookCall.End false] ∧
      (Execute (countingChild 1) countingRepeat).calls =
        countingRepeat.calls ++
          [HookCall.Execute, HookCall.IsFinished true, HookCall.End false] ∧
      (hooksDuring (Execute (countingChild 1)) countingRepeat).getLast? =
        some (HookCall.End false) ∧
      HookCall.Initialize ∉ hooksDuring (Execute (countingChild 1)) countingRepeat ∧
      (Execute (countingChild 1) countingRepeat).m_ended = true :=
  C1_execute_running_child_finished (countingChild 1) countingRepeat rfl rfl

/-- C2: in state RestartPending (`m_ended = true`), `RepeatCommand::Execute`
clears `m_ended` and calls the child's `Initialize`, then goes on as it does
from the state so reached; the child hooks of the call are `Initialize`,
`Execute`, the completion query, and `End(false)` when the query answered true,
in this order: `Initialize` once, `Execute` once, right after it, and no `End`
between them. -/
theorem C2_execute_restart_pending (v : CommandHooks σ) (self : RepeatCommand σ)
    (hPending : self.m_ended = true) :
    Execute v self = Execute v (callInitialize v { self with m_ended := false }) ∧
      (callInitialize v { self with m_ended := false }).m_ended = false ∧
      hooksDuring (callInitialize v) { self with m_ended := false } = [HookCall.Initialize] ∧
      hooksDuring (Execute v) self =
        HookCall.Initialize :: HookCall.Execute :: HookCall.IsFinished (childFinishes v self) ::
          (if childFinishes v self then [HookCall.End false] else []) ∧
      (hooksDuring (Execute v) self).count HookCall.Initialize = 1 ∧
      (hooksDuring (Execute v) self).count HookCall.Execute = 1 ∧
      (hooksDuring (Execute v) self).take 2 = [HookCall.Initialize, HookCall.Execute] := by
  have hH : hooksDuring (Execute v) self =
      HookCall.Initialize :: HookCall.Execute :: HookCall.IsFinished (childFinishes v self) ::
        (if childFinishes v self then [HookCall.End false] else []) := by
    rw [hooksDuring_Execute, hPending]; rfl
  refine ⟨?_, rfl, ?_, hH, ?_, ?_, ?_⟩
  · simp [Execute, hPending, callInitialize]
  · simp [hooksDuring, callInitialize]
  · rw [hH]; cases childFinishes v self <;> decide
  · rw [hH]; cases childFinishes v self <;> decide
  · rw [hH]; rfl

/-- C2 at a concrete input: the counting child with `k = 3`, restart pending. -/
theorem C2_execute_restart_pending_witness :
    Execute (countingChild 3) { countingRepeat with m_ended := true } =
        Execute (countingChild 3)
          (callInitialize (countingChild 3)
            { ({ countingRepeat with m_ended := true } : RepeatCommand Nat) with
              m_ended := false }) ∧
      (callInitialize (countingChild 3)
          { ({ countingRepeat with m_ended := true } : RepeatCommand Nat) with
            m_ended := false }).m_ended = false ∧
      hooksDuring (callInitialize (countingChild 3))
          { ({ countingRepeat with m_ended := true } : RepeatCommand Nat) with
            m_ended := false } = [HookCall.Initialize] ∧
      hooksDuring (Execute (countingChild 3)) { countingRepeat with m_ended := true } =
        HookCall.Initialize :: HookCall.Execute ::
          HookCall.IsFinished
            (childFinishes (countingChild 3) { countingRepeat with m_ended := true }) ::
          (if childFinishes (countingChild 3) { countingRepeat with m_ended := true }
            then [HookCall.End false] else []) ∧
      (hooksDuring (Execute (countingChild 3))
          { countingRepeat with m_ended := true }).count HookCall.Initialize = 1 ∧
      (hooksDuring (Execute (countingChild 3))
          { countingRepeat with m_ended := true }).count HookCall.Execute = 1 ∧
      (hooksDuring (Execute (countingChild 3))
          { countingRepeat with m_ended := true }).take 2 =
        [HookCall.Initialize, HookCall.Execute] :=
  C2_execute_restart_pending (countingChild 3) { countingRepeat with m_ended := true } rfl

/-- C4: after `Initialize` and any number of `Execute` calls, whatever the
child reports, `RepeatCommand::IsFinished` returns false and hands the object
back as it was (same child, same `m_ended`, same log: no child hook is
invoked). -/
theorem C4_isFinished_false (v : CommandHooks σ) (self : RepeatCommand σ) (n : Nat) :
    (IsFinished (activation v self n)).1 = false ∧
      (IsFinished (activation v self n)).2 = activation v self n ∧
      (IsFinished (activation v self n)).2.m_ended = (activation v self n).m_ended ∧
      (IsFinished (activation v self n)).2.m_command = (activation v self n).m_command ∧
      hooksDuring (fun s => (IsFinished s).2) (activation v self n) = [] := by
  refine ⟨rfl, rfl, rfl, rfl, ?_⟩
  simp [hooksDuring, IsFinished]

/-- C5: in every state and for every `b`, `RepeatCommand::End(b)` invokes
exactly one child hook, `End(b)`; `m_ended` is left as it was. -/
theorem C5_end_forwards (v : CommandHooks σ) (self : RepeatCommand σ) (b : Bool) :
    hooksDuring (End v b) self = [HookCall.End b] ∧
      (End v b self).calls = self.calls ++ [HookCall.End b] ∧
      (End v b self).m_command = v.End b self.m_command ∧
      (End v b self).m_ended = self.m_ended := by
  refine ⟨?_, rfl, rfl, rfl⟩
  simp [hooksDuring, End, callEnd]

/-- Tick `M + 1` of an activation: the child's `Initialize` when it is the first
tick, then what `Execute` invokes on the state reached after `M` ticks. -/
theorem tickHooks_succ (v : CommandHooks σ) (self : RepeatCommand σ) (M : Nat) :
    tickHooks v self (M + 1) =
      (if M = 0 then [HookCall.Initialize] else []) ++
        hooksDuring (Execute v) (activation v self M) := by
  cases M with
  | zero =>
    rw [tickHooks_one, hooksDuring_Execute]
    show _ = _ ++ ((if (Initialize v self).m_ended = true then _ else _) ++ _ ++ _)
    rw [m_ended_Initialize]
    simp [activation]
  | succ M => simp [tickHooks_add_two]

/-- The completion query answered true on tick `M + 1` exactly when the child
finishes in the `Execute` of that tick. -/
theorem isFinished_true_mem_tickHooks (v : CommandHooks σ) (self : RepeatCommand σ) (M : Nat) :
    HookCall.IsFinished true ∈ tickHooks v self (M + 1) ↔
      childFinishes v (activation v self M) = true := by
  rw [tickHooks_succ, hooksDuring_Execute]
  cases childFinishes v (activation v self M) <;>
    cases (activation v self M).m_ended <;> by_cases hM : M = 0 <;> simp [hM]

/-- The log of an activation extends the log it started from by the hooks of
the activation. -/
theorem calls_activation (v : CommandHooks σ) (self : RepeatCommand σ) (n : Nat) :
    (activation v self n).calls =
      self.calls ++ hooksDuring (fun s => activation v s n) self := by
  have key : ∃ H, (activation v self n).calls = self.calls ++ H := by
    induction n with
    | zero => exact ⟨[HookCall.Initialize], rfl⟩
    | succ n ih =>
      obtain ⟨H, hH⟩ := ih
      refine ⟨H ++ hooksDuring (Execute v) (activation v self n), ?_⟩
      show (Execute v (activation v self n)).calls = _
      rw [calls_Execute, hooksDuring_Execute, hH, List.append_assoc]
  obtain ⟨H, hH⟩ := key
  unfold hooksDuring
  rw [hH, List.drop_left]

/-- The hooks of an activation without ticks: the child's `Initialize`. -/
theorem hooksDuring_activation_zero (v : CommandHooks σ) (self : RepeatCommand σ) :
    hooksDuring (fun s => activation v s 0) self = [HookCall.Initialize] := by
  unfold hooksDuring
  show ((Initialize v self).calls).drop _ = _
  rw [calls_Initialize, List.drop_left]

/-- The hooks of an activation grow by the hooks of each further `Execute`. -/
theorem hooksDuring_activation_succ (v : CommandHooks σ) (self : RepeatCommand σ) (n : Nat) :
    hooksDuring (fun s => activation v s (n + 1)) self =
      hooksDuring (fun s => activation v s n) self ++
        hooksDuring (Execute v) (activation v self n) := by
  have h1 : (activation v self (n + 1)).calls =
      self.calls ++ (hooksDuring (fun s => activation v s n) self ++
        hooksDuring (Execute v) (activation v self n)) := by
    show (Execute v (activation v self n)).calls = _
    rw [calls_Execute, hooksDuring_Execute, calls_activation v self n, List.append_assoc]
  show ((activation v self (n + 1)).calls).drop _ = _
  rw [h1, List.drop_left]

/-- Division and remainder of a successor. -/
theorem succ_div_mod_cases (n k : Nat) (hk : 0 < k) :
    (n % k + 1 = k ∧ (n + 1) % k = 0 ∧ (n + 1) / k = n / k + 1) ∨
      (n % k + 1 < k ∧ (n + 1) % k = n % k + 1 ∧ (n + 1) / k = n / k) := by
  have hlt := Nat.mod_lt n hk
  have hdm := Nat.mod_add_div n k
  by_cases h : n % k + 1 = k
  · left
    have := (Nat.div_mod_unique (a := n + 1) (d := n / k + 1) (c := 0) hk).2
      ⟨by rw [Nat.mul_add, Nat.mul_one]; omega, hk⟩
    exact ⟨h, this.2, this.1⟩
  · right
    have := (Nat.div_mod_unique (a := n + 1) (d := n / k) (c := n % k + 1) hk).2
      ⟨by omega, by omega⟩
    exact ⟨by omega, this.2, this.1⟩

/-- Whether the counting child finishes in an `Execute` of the decorator. -/
theorem childFinishes_countingChild (k : Nat) (self : RepeatCommand Nat) :
    childFinishes (countingChild k) self =
      decide ((if self.m_ended then 0 else self.m_command.state) + 1 = k) := by
  unfold childFinishes countingChild
  cases self.m_ended <;> simp

/-- The count of the counting child after an `Execute` of the decorator. -/
theorem state_Execute_countingChild (k : Nat) (self : RepeatCommand Nat) :
    (Execute (countingChild k) self).m_command.state =
      (if self.m_ended then 0 else self.m_command.state) + 1 := by
  rw [m_command_Execute]
  unfold childFinishes countingChild
  cases self.m_ended <;> simp

/-- The decorator over the counting child after `Initialize` and `n` calls of
`Execute`: a restart is pending exactly after a positive multiple of `k` ticks;
the child's count and the numbers of child `Initialize` and `End` calls made so
far. -/
theorem countingChild_activation (k : Nat) (hk : 0 < k) (self : RepeatCommand Nat) (n : Nat) :
    (activation (countingChild k) self n).m_ended = decide (1 ≤ n ∧ n % k = 0) ∧
      (activation (countingChild k) self n).m_command.state =
        (if 1 ≤ n ∧ n % k = 0 then k else n % k) ∧
      (hooksDuring (fun s => activation (countingChild k) s n) self).count HookCall.Initialize =
        n / k + (if 1 ≤ n ∧ n % k = 0 then 0 else 1) ∧
      (hooksDuring (fun s => activation (countingChild k) s n) self).count (HookCall.End false) =
        n / k ∧
      (hooksDuring (fun s => activation (countingChild k) s n) self).count (HookCall.End true) =
        0 := by
  induction n with
  | zero =>
    rw [hooksDuring_activation_zero]
    refine ⟨?_, ?_, ?_, ?_, ?_⟩
    · simp [activation, m_ended_Initialize]
    · simp [activation, Initialize, callInitialize, countingChild]
    · simp
    · simp
    · simp
  | succ n ih =>
    obtain ⟨ihE, ihS, ihI, ihF, ihT⟩ := ih
    have hc : (if (decide (1 ≤ n ∧ n % k = 0)) = true then 0
        else (if 1 ≤ n ∧ n % k = 0 then k else n % k)) = n % k := by
      by_cases he : 1 ≤ n ∧ n % k = 0
      · simp [he]
      · simp [he]
    have hE : (activation (countingChild k) self (n + 1)).m_ended = decide (n % k + 1 = k) := by
      show (Execute (countingChild k) (activation (countingChild k) self n)).m_ended = _
      rw [m_ended_Execute, childFinishes_countingChild, ihE, ihS, hc]
    have hS : (activation (countingChild k) self (n + 1)).m_command.state = n % k + 1 := by
      show (Execute (countingChild k) (activation (countingChild k) self n)).m_command.state = _
      rw [state_Execute_countingChild, ihE, ihS, hc]
    have hH : hooksDuring (Execute (countingChild k)) (activation (countingChild k) self n) =
        (if 1 ≤ n ∧ n % k = 0 then [HookCall.Initialize] else []) ++
          [HookCall.Execute, HookCall.IsFinished (decide (n % k + 1 = k))] ++
          (if n % k + 1 = k then [HookCall.End false] else []) := by
      rw [hooksDuring_Execute, childFinishes_countingChild, ihE, ihS, hc]
      simp
    rw [hooksDuring_activation_succ, hH, hE, hS]
    simp only [List.count_append, ihI, ihF, ihT]
    rcases succ_div_mod_cases n k hk with ⟨h1, h2, h3⟩ | ⟨h1, h2, h3⟩
    · have hn1 : 1 ≤ n + 1 ∧ (n + 1) % k = 0 := ⟨by omega, h2⟩
      rw [if_pos h1, if_pos hn1, if_pos hn1, h3]
      refine ⟨?_, ?_, ?_, ?_, ?_⟩
      · rw [decide_eq_true h1, decide_eq_true hn1]
      · exact h1
      · by_cases he : 1 ≤ n ∧ n % k = 0
        · rw [if_pos he, if_pos he]; simp
        · rw [if_neg he, if_neg he]; simp
      · by_cases he : 1 ≤ n ∧ n % k = 0
        · rw [if_pos he]; simp
        · rw [if_neg he]; simp
      · by_cases he : 1 ≤ n ∧ n % k = 0
        · rw [if_pos he]; simp
        · rw [if_neg he]; simp
    · have hk1 : ¬ (n % k + 1 = k) := by omega
      have hn1 : ¬ (1 ≤ n + 1 ∧ (n + 1) % k = 0) := by
        intro h
        omega
      rw [if_neg hk1, if_neg hn1, if_neg hn1, h3]
      refine ⟨?_, ?_, ?_, ?_, ?_⟩
      · rw [decide_eq_false hk1, decide_eq_false hn1]
      · exact h2.symm
      · by_cases he : 1 ≤ n ∧ n % k = 0
        · rw [if_pos he, if_pos he]; simp
        · rw [if_neg he, if_neg he]; simp
      · by_cases he : 1 ≤ n ∧ n % k = 0
        · rw [if_pos he]; simp
        · rw [if_neg he]; simp
      · by_cases he : 1 ≤ n ∧ n % k = 0
        · rw [if_pos he]; simp
        · rw [if_neg he]; simp

/-- The child hooks of tick `M + 1` when the decorator drives the counting child. -/
theorem tickHooks_countingChild (k : Nat) (hk : 0 < k) (self : RepeatCommand Nat) (M : Nat) :
    tickHooks (countingChild k) self (M + 1) =
      (if M % k = 0 then [HookCall.Initialize] else []) ++
        [HookCall.Execute, HookCall.IsFinished (decide (M % k + 1 = k))] ++
        (if M % k + 1 = k then [HookCall.End false] else []) := by
  obtain ⟨hE, hS, -, -, -⟩ := countingChild_activation k hk self M
  rw [tickHooks_succ, hooksDuring_Execute, childFinishes_countingChild, hE, hS]
  by_cases h0 : M = 0
  · subst h0; simp
  · by_cases hm : M % k = 0
    · have h1 : 1 ≤ M := by omega
      simp [h0, hm, h1]
    · simp [h0, hm]

/-- C6: the decorator over a child that finishes exactly on its `k`-th
`Execute` since each `Initialize` (`k ≥ 1`), driven by `Initialize` and `n ≥ 1`
calls of `Execute` from any state: the child's `Initialize` is called
`1 + (n - 1) / k` times, its `End` is called `n / k` times with argument false
and never with argument true.  For `k = 3` and 5 ticks the child hooks, tick by
tick, are `Initialize, Execute | Execute | Execute, End(false) | Initialize,
Execute | Execute` (each `Execute` followed by the completion query, answering
true on tick 3 only), with 2 calls of `Initialize` and 1 call of `End`. -/
theorem C6_scenario (k n : Nat) (hk : 1 ≤ k) (hn : 1 ≤ n) (self : RepeatCommand Nat) :
    (hooksDuring (fun s => activation (countingChild k) s n) self).count HookCall.Initialize =
        1 + (n - 1) / k ∧
      (hooksDuring (fun s => activation (countingChild k) s n) self).count (HookCall.End false) =
        n / k ∧
      (hooksDuring (fun s => activation (countingChild k) s n) self).count (HookCall.End true) =
        0 ∧
      List.map (tickHooks (countingChild 3) self) [1, 2, 3, 4, 5] =
        [[HookCall.Initialize, HookCall.Execute, HookCall.IsFinished false],
         [HookCall.Execute, HookCall.IsFinished false],
         [HookCall.Execute, HookCall.IsFinished true, HookCall.End false],
         [HookCall.Initialize, HookCall.Execute, HookCall.IsFinished false],
         [HookCall.Execute, HookCall.IsFinished false]] ∧
      List.map (fun N => (tickHooks (countingChild 3) self N).filter (fun h => !h.isQuery))
          [1, 2, 3, 4, 5] =
        [[HookCall.Initialize, HookCall.Execute],
         [HookCall.Execute],
         [HookCall.Execute, HookCall.End false],
         [HookCall.Initialize, HookCall.Execute],
         [HookCall.Execute]] ∧
      hooksDuring (fun s => activation (countingChild 3) s 5) self =
        [HookCall.Initialize, HookCall.Execute, HookCall.IsFinished false,
         HookCall.Execute, HookCall.IsFinished false,
         HookCall.Execute, HookCall.IsFinished true, HookCall.End false,
         HookCall.Initialize, HookCall.Execute, HookCall.IsFinished false,
         HookCall.Execute, HookCall.IsFinished false] ∧
      (hooksDuring (fun s => activation (countingChild 3) s 5) self).count
          HookCall.Initialize = 2 ∧
      (hooksDuring (fun s => activation (countingChild 3) s 5) self).count
          (HookCall.End false) = 1 ∧
      (hooksDuring (fun s => activation (countingChild 3) s 5) self).count
          (HookCall.End true) = 0 := by
  have t1 : tickHooks (countingChild 3) self 1 =
      [HookCall.Initialize, HookCall.Execute, HookCall.IsFinished false] := by
    have := tickHooks_countingChild 3 (by decide) self 0
    simpa using this
  have t2 : tickHooks (countingChild 3) self 2 =
      [HookCall.Execute, HookCall.IsFinished false] := by
    have := tickHooks_countingChild 3 (by decide) self 1
    simpa using this
  have t3 : tickHooks (countingChild 3) self 3 =
      [HookCall.Execute, HookCall.IsFinished true, HookCall.End false] := by
    have := tickHooks_countingChild 3 (by decide) self 2
    simpa using this
  have t4 : tickHooks (countingChild 3) self 4 =
      [HookCall.Initialize, HookCall.Execute, HookCall.IsFinished false] := by
    have := tickHooks_countingChild 3 (by decide) self 3
    simpa using this
  have t5 : tickHooks (countingChild 3) self 5 =
      [HookCall.Execute, HookCall.IsFinished false] := by
    have := tickHooks_countingChild 3 (by decide) self 4
    simpa using this
  have hall : hooksDuring (fun s => activation (countingChild 3) s 5) self =
      [HookCall.Initialize, HookCall.Execute, HookCall.IsFinished false,
       HookCall.Execute, HookCall.IsFinished false,
       HookCall.Execute, HookCall.IsFinished true, HookCall.End false,
       HookCall.Initialize, HookCall.Execute, HookCall.IsFinished false,
       HookCall.Execute, HookCall.IsFinished false] := by
    have e1 := tickHooks_succ (countingChild 3) self 0
    rw [t1] at e1
    rw [hooksDuring_activation_succ, hooksDuring_activation_succ, hooksDuring_activation_succ,
      hooksDuring_activation_succ, hooksDuring_activation_succ, hooksDuring_activation_zero,
      ← tickHooks_add_two, ← tickHooks_add_two, ← tickHooks_add_two, ← tickHooks_add_two,
      t2, t3, t4, t5]
    simp at e1
    rw [← e1]
    rfl
  obtain ⟨-, -, hI, hF, hT⟩ := countingChild_activation k hk self n
  refine ⟨?_, hF, hT, ?_, ?_, hall, ?_, ?_, ?_⟩
  · rw [hI]
    obtain ⟨m, rfl⟩ : ∃ m, n = m + 1 := ⟨n - 1, by omega⟩
    rcases succ_div_mod_cases m k hk with ⟨h1, h2, h3⟩ | ⟨h1, h2, h3⟩
    · rw [if_pos ⟨hn, h2⟩, h3]; simp; omega
    · rw [if_neg (by omega), h3]; simp; omega
  · simp only [List.map, t1, t2, t3, t4, t5]
  · simp only [List.map, t1, t2, t3, t4, t5]
    decide
  · rw [hall]; decide
  · rw [hall]; decide
  · rw [hall]; decide

/-- C6 at concrete inputs: `k = 2`, `n = 7`, started on the constructed decorator. -/
theorem C6_scenario_witness :
    (hooksDuring (fun s => activation (countingChild 2) s 7) countingRepeat).count
        HookCall.Initialize = 4 ∧
      (hooksDuring (fun s => activation (countingChild 2) s 7) countingRepeat).count
        (HookCall.End false) = 3 ∧
      (hooksDuring (fun s => activation (countingChild 2) s 7) countingRepeat).count
        (HookCall.End true) = 0 :=
  ⟨(C6_scenario 2 7 (by decide) (by decide) countingRepeat).1,
   (C6_scenario 2 7 (by decide) (by decide) countingRepeat).2.1,
   (C6_scenario 2 7 (by decide) (by decide) countingRepeat).2.2.1⟩

/-- No action on the decorator changes its own requirement set. -/
theorem m_requirements_after (v : CommandHooks σ) (self : RepeatCommand σ) (a : Action σ) :
    (after v self a).m_requirements = self.m_requirements := by
  cases a with
  | Initialize => rfl
  | Execute =>
    show (Execute v self).m_requirements = _
    unfold Execute callIsFinished callExecute callEnd callInitialize
    cases self.m_ended <;> simp <;> split <;> rfl
  | IsFinished => rfl
  | End interrupted => rfl
  | RunsWhenDisabled => rfl
  | GetInterruptionBehavior => rfl
  | childChanged f => rfl

/-- No sequence of actions on the decorator changes its own requirement set. -/
theorem m_requirements_afterAll (v : CommandHooks σ) (actions : List (Action σ))
    (self : RepeatCommand σ) :
    (afterAll v self actions).m_requirements = self.m_requirements := by
  induction actions generalizing self with
  | nil => rfl
  | cons a as ih =>
    show (afterAll v (after v self a) as).m_requirements = _
    rw [ih, m_requirements_after]

/-- C7: when the constructor succeeds, the decorator's requirement set is the
child's requirement set as the child had it when it was handed to the
constructor, and it is still that set after any sequence of `Initialize`,
`Execute`, `IsFinished`, `End`, query calls and changes of the child object
(changes of the child's own requirement set among them). -/
theorem C7_requirements_captured {Sched : Type} (sched : Sched) (command : Command σ)
    (ended : Bool) (self : RepeatCommand σ)
    (hBuilt : (RepeatCommand.new sched command ended).result = Except.ok self) :
    self.GetRequirements = command.GetRequirements ∧
      ∀ (v : CommandHooks σ) (actions : List (Action σ)),
        (afterAll v self actions).GetRequirements = command.GetRequirements := by
  have h0 : self.GetRequirements = command.GetRequirements := by
    unfold RepeatCommand.new CommandScheduler.RequireUngrouped at hBuilt
    cases hc : command.IsComposed
    · rw [hc] at hBuilt
      simp at hBuilt
      rw [← hBuilt]
      simp [RepeatCommand.GetRequirements, RepeatCommand.SetName, RepeatCommand.AddRequirements,
        Command.GetRequirements, Command.SetComposed]
    · rw [hc] at hBuilt
      simp at hBuilt
  refine ⟨h0, ?_⟩
  intro v actions
  rw [← h0]
  exact m_requirements_afterAll v actions self

/-- C7 at a concrete input: the decorator built over `countingCommand`, whose
requirements are the resources 4 and 9; afterwards the child gives up its
requirements and the decorator runs an activation. -/
theorem C7_requirements_captured_witness :
    countingRepeat.GetRequirements = countingCommand.GetRequirements ∧
      (afterAll (countingChild 1) countingRepeat
          [Action.childChanged (fun c => { c with m_requirements := ∅ }), Action.Initialize,
            Action.Execute, Action.IsFinished, Action.End true]).GetRequirements = {4, 9} ∧
      (afterAll (countingChild 1) countingRepeat
          [Action.childChanged (fun c => { c with m_requirements := ∅ }), Action.Initialize,
            Action.Execute, Action.IsFinished, Action.End true]).m_command.GetRequirements = ∅ :=
  ⟨(C7_requirements_captured () countingCommand false countingRepeat rfl).1,
   (C7_requirements_captured () countingCommand false countingRepeat rfl).2 (countingChild 1) _,
   rfl⟩

/-- C8: in every state of the decorator, also after any sequence of lifecycle
calls, queries and changes of the child object, `RunsWhenDisabled` returns
what the child answers now and `GetInterruptionBehavior` returns what the child
answers now, and both hand the object back as it was (so `m_ended` is
unchanged and no child lifecycle hook is logged); after a change `f` of the
child the answers are those of the changed child. -/
theorem C8_live_queries (v : CommandHooks σ) (self : RepeatCommand σ)
    (actions : List (Action σ)) :
    RunsWhenDisabled v (afterAll v self actions) =
        (v.RunsWhenDisabled (afterAll v self actions).m_command, afterAll v self actions) ∧
      GetInterruptionBehavior v (afterAll v self actions) =
        (v.GetInterruptionBehavior (afterAll v self actions).m_command,
          afterAll v self actions) ∧
      (RunsWhenDisabled v (afterAll v self actions)).2.m_ended =
        (afterAll v self actions).m_ended ∧
      (GetInterruptionBehavior v (afterAll v self actions)).2.m_ended =
        (afterAll v self actions).m_ended ∧
      (∀ f : Command σ → Command σ,
        (RunsWhenDisabled v (after v (afterAll v self actions) (Action.childChanged f))).1 =
            v.RunsWhenDisabled (f (afterAll v self actions).m_command) ∧
          (GetInterruptionBehavior v
              (after v (afterAll v self actions) (Action.childChanged f))).1 =
            v.GetInterruptionBehavior (f (afterAll v self actions).m_command)) :=
  ⟨rfl, rfl, rfl, rfl, fun _ => ⟨rfl, rfl⟩⟩

/-- C9: the constructor fails, with the composition error, exactly when the
child handed to it is already composed; when it fails, the caller still holds
the child, unchanged (composed flag, name, requirements and the rest), the
scheduler state is the one before the call, and no decorator exists. -/
theorem C9_composition_guard {Sched : Type} (sched : Sched) (command : Command σ)
    (ended : Bool) :
    ((RepeatCommand.new sched command ended).result =
          Except.error CompositionError.alreadyComposed ↔
        command.IsComposed = true) ∧
      ((∃ self, (RepeatCommand.new sched command ended).result = Except.ok self) ↔
        command.IsComposed = false) ∧
      (command.IsComposed = true →
        (RepeatCommand.new sched command ended).scheduler = sched ∧
          (RepeatCommand.new sched command ended).command = some command ∧
          ∀ self, (RepeatCommand.new sched command ended).result ≠ Except.ok self) := by
  unfold RepeatCommand.new CommandScheduler.RequireUngrouped
  cases hc : command.IsComposed <;> simp

/-- C9 at a concrete input: a child whose composed flag is already set. -/
theorem C9_composition_guard_witness :
    (RepeatCommand.new () (countingCommand.SetComposed true) false).scheduler = () ∧
      (RepeatCommand.new () (countingCommand.SetComposed true) false).command =
        some (countingCommand.SetComposed true) ∧
      ∀ self, (RepeatCommand.new () (countingCommand.SetComposed true) false).result ≠
        Except.ok self :=
  (C9_composition_guard () (countingCommand.SetComposed true) false).2.2 rfl

/-- C10: the constructor, given a child whose composed flag is false,
succeeds, takes the child from the caller, and the child it then owns has the
composed flag true (and is otherwise the child it was given); constructing a
second decorator over that child fails with the composition error and changes
neither the child nor the scheduler state. -/
theorem C10_ownership_marking {Sched : Type} (sched : Sched) (command : Command σ)
    (ended : Bool) (hUngrouped : command.IsComposed = false) :
    ∃ self, (RepeatCommand.new sched command ended).result = Except.ok self ∧
      (RepeatCommand.new sched command ended).command = none ∧
      self.m_command.IsComposed = true ∧
      self.m_command = command.SetComposed true ∧
      ∀ (sched2 : Sched) (ended2 : Bool),
        (RepeatCommand.new sched2 self.m_command ended2).result =
            Except.error CompositionError.alreadyComposed ∧
          (RepeatCommand.new sched2 self.m_command ended2).command = some self.m_command ∧
          (RepeatCommand.new sched2 self.m_command ended2).scheduler = sched2 := by
  unfold RepeatCommand.new CommandScheduler.RequireUngrouped
  rw [hUngrouped]
  simp [RepeatCommand.SetName, RepeatCommand.AddRequirements, Command.SetComposed,
    Command.IsComposed]

/-- C10 at a concrete input: the decorator built over `countingCommand`. -/
theorem C10_ownership_marking_witness :
    ∃ self, (RepeatCommand.new () countingCommand false).result = Except.ok self ∧
      (RepeatCommand.new () countingCommand false).command = none ∧
      self.m_command.IsComposed = true ∧
      self.m_command = countingCommand.SetComposed true ∧
      ∀ (sched2 : Unit) (ended2 : Bool),
        (RepeatCommand.new sched2 self.m_command ended2).result =
            Except.error CompositionError.alreadyComposed ∧
          (RepeatCommand.new sched2 self.m_command ended2).command = some self.m_command ∧
          (RepeatCommand.new sched2 self.m_command ended2).scheduler = sched2 :=
  C10_ownership_marking () countingCommand false rfl

/-- No action on the decorator changes its own name. -/
theorem m_name_after (v : CommandHooks σ) (self : RepeatCommand σ) (a : Action σ) :
    (after v self a).m_name = self.m_name := by
  cases a with
  | Initialize => rfl
  | Execute =>
    show (Execute v self).m_name = _
    unfold Execute callIsFinished callExecute callEnd callInitialize
    cases self.m_ended <;> simp <;> split <;> rfl
  | IsFinished => rfl
  | End interrupted => rfl
  | RunsWhenDisabled => rfl
  | GetInterruptionBehavior => rfl
  | childChanged f => rfl

/-- No sequence of actions on the decorator changes its own name. -/
theorem m_name_afterAll (v : CommandHooks σ) (actions : List (Action σ))
    (self : RepeatCommand σ) :
    (afterAll v self actions).m_name = self.m_name := by
  induction actions generalizing self with
  | nil => rfl
  | cons a as ih =>
    show (afterAll v (after v self a) as).m_name = _
    rw [ih, m_name_after]

/-- C11: when the constructor succeeds over a child named `s`, the decorator's
name is `"Repeat(" ++ s ++ ")"`, and it is still that name after any sequence
of lifecycle calls, queries and changes of the child object (a renaming of the
child among them). -/
theorem C11_name_fixed {Sched : Type} (sched : Sched) (command : Command σ)
    (ended : Bool) (self : RepeatCommand σ) (s : String)
    (hName : command.GetName = s)
    (hBuilt : (RepeatCommand.new sched command ended).result = Except.ok self) :
    self.GetName = "Repeat(" ++ s ++ ")" ∧
      ∀ (v : CommandHooks σ) (actions : List (Action σ)),
        (afterAll v self actions).GetName = "Repeat(" ++ s ++ ")" := by
  have h0 : self.GetName = "Repeat(" ++ s ++ ")" := by
    unfold RepeatCommand.new CommandScheduler.RequireUngrouped at hBuilt
    cases hc : command.IsComposed
    · rw [hc] at hBuilt
      simp at hBuilt
      rw [← hBuilt, ← hName]
      simp [RepeatCommand.GetName, RepeatCommand.SetName, RepeatCommand.AddRequirements,
        Command.GetName, Command.SetComposed]
    · rw [hc] at hBuilt
      simp at hBuilt
  refine ⟨h0, ?_⟩
  intro v actions
  rw [← h0]
  exact m_name_afterAll v actions self

/-- C11 at a concrete input: the decorator built over `countingCommand`, named
"child"; afterwards the child is renamed and the decorator runs an activation. -/
theorem C11_name_fixed_witness :
    countingRepeat.GetName = "Repeat(" ++ "child" ++ ")" ∧
      (afterAll (countingChild 1) countingRepeat
          [Action.childChanged (fun c => { c with m_name := "other" }), Action.Initialize,
            Action.Execute, Action.IsFinished, Action.End true]).GetName =
        "Repeat(" ++ "child" ++ ")" ∧
      (afterAll (countingChild 1) countingRepeat
          [Action.childChanged (fun c => { c with m_name := "other" }), Action.Initialize,
            Action.Execute, Action.IsFinished, Action.End true]).m_command.GetName = "other" :=
  ⟨(C11_name_fixed () countingCommand false countingRepeat "child" rfl rfl).1,
   (C11_name_fixed () countingCommand false countingRepeat "child" rfl rfl).2
     (countingChild 1) _,
   rfl⟩

/-- C13: from every state, one left with `m_ended = true` by an earlier
activation included, `RepeatCommand::Initialize` leaves `m_ended = false` and
invokes exactly one child hook, `Initialize`; the `Execute` that follows invokes
the child's `Execute` first and does not invoke the child's `Initialize`. -/
theorem C13_initialize_resets (v : CommandHooks σ) (self : RepeatCommand σ) :
    hooksDuring (Initialize v) self = [HookCall.Initialize] ∧
      (Initialize v self).m_ended = false ∧
      (Initialize v self).m_command = v.Initialize self.m_command ∧
      hooksDuring (Initialize v) { self with m_ended := true } = [HookCall.Initialize] ∧
      (Initialize v { self with m_ended := true }).m_ended = false ∧
      hooksDuring (Execute v) (Initialize v self) =
        HookCall.Execute :: HookCall.IsFinished (childFinishes v (Initialize v self)) ::
          (if childFinishes v (Initialize v self) then [HookCall.End false] else []) ∧
      HookCall.Initialize ∉ hooksDuring (Execute v) (Initialize v self) ∧
      (hooksDuring (fun s => Execute v (Initialize v s)) self).count HookCall.Initialize = 1 := by
  have hI : ∀ s : RepeatCommand σ, hooksDuring (Initialize v) s = [HookCall.Initialize] := by
    intro s
    unfold hooksDuring
    rw [calls_Initialize, List.drop_left]
  have hE : hooksDuring (Execute v) (Initialize v self) =
      HookCall.Execute :: HookCall.IsFinished (childFinishes v (Initialize v self)) ::
        (if childFinishes v (Initialize v self) then [HookCall.End false] else []) := by
    rw [hooksDuring_Execute]
    show (if (Initialize v self).m_ended = true then _ else _) ++ _ ++ _ = _
    rw [m_ended_Initialize]
    simp
  refine ⟨hI self, rfl, rfl, hI _, rfl, hE, ?_, ?_⟩
  · rw [hE]
    cases childFinishes v (Initialize v self) <;> simp
  · have h1 := tickHooks_one v self
    change hooksDuring (fun s => Execute v (Initialize v s)) self = _ at h1
    rw [h1]
    cases childFinishes v (Initialize v self) <;> simp

/-- C16: every `RepeatCommand::Execute` call invokes the child's `Execute`
exactly once and the completion query exactly once, right after it; before them
there is at most the child's `Initialize`, after them at most `End(false)`.  In
state Running with a child that answers false these two are the only child
hooks and `m_ended` stays false. -/
theorem C16_execute_steps_once (v : CommandHooks σ) (self : RepeatCommand σ) :
    (hooksDuring (Execute v) self).count HookCall.Execute = 1 ∧
      (hooksDuring (Execute v) self).countP HookCall.isQuery = 1 ∧
      (∃ pre post, hooksDuring (Execute v) self =
          pre ++ [HookCall.Execute, HookCall.IsFinished (childFinishes v self)] ++ post ∧
        (∀ h ∈ pre, h = HookCall.Initialize) ∧ (∀ h ∈ post, h = HookCall.End false)) ∧
      (self.m_ended = false → childFinishes v self = false →
        hooksDuring (Execute v) self = [HookCall.Execute, HookCall.IsFinished false] ∧
          (Execute v self).m_ended = false) := by
  refine ⟨?_, ?_, ⟨_, _, hooksDuring_Execute v self, ?_, ?_⟩, ?_⟩
  · rw [hooksDuring_Execute]
    cases self.m_ended <;> cases childFinishes v self <;> decide
  · rw [hooksDuring_Execute]
    cases self.m_ended <;> cases childFinishes v self <;> decide
  · intro h hh
    split at hh <;> simp_all
  · intro h hh
    split at hh <;> simp_all
  · intro hR hF
    rw [hooksDuring_Execute, m_ended_Execute, hF, hR]
    exact ⟨rfl, rfl⟩

/-- C16 at a concrete input: the counting child with `k = 3`, in state Running. -/
theorem C16_execute_steps_once_witness :
    hooksDuring (Execute (countingChild 3)) countingRepeat =
        [HookCall.Execute, HookCall.IsFinished false] ∧
      (Execute (countingChild 3) countingRepeat).m_ended = false :=
  (C16_execute_steps_once (countingChild 3) countingRepeat).2.2.2 rfl rfl

/-- C18: with a restart pending (`m_ended = true`), `Execute` alone and
`Initialize` followed by `Execute` leave the same object (same child, same
`m_ended`, same log) and invoke the same child hooks in the same order. -/
theorem C18_execute_is_initialize_execute (v : CommandHooks σ) (self : RepeatCommand σ)
    (hPending : self.m_ended = true) :
    Execute v self = Execute v (Initialize v self) ∧
      hooksDuring (Execute v) self = hooksDuring (fun s => Execute v (Initialize v s)) self ∧
      (Execute v self).m_command = (Execute v (Initialize v self)).m_command ∧
      (Execute v self).m_ended = (Execute v (Initialize v self)).m_ended := by
  have h : Execute v self = Execute v (Initialize v self) := by
    simp [Execute, Initialize, hPending, callInitialize]
  refine ⟨h, ?_, by rw [h], by rw [h]⟩
  unfold hooksDuring
  rw [h]

/-- C18 at a concrete input: the counting child with `k = 1`, restart pending. -/
theorem C18_execute_is_initialize_execute_witness :
    Execute (countingChild 1) { countingRepeat with m_ended := true } =
        Execute (countingChild 1)
          (Initialize (countingChild 1) { countingRepeat with m_ended := true }) ∧
      hooksDuring (Execute (countingChild 1)) { countingRepeat with m_ended := true } =
        hooksDuring (fun s => Execute (countingChild 1) (Initialize (countingChild 1) s))
          { countingRepeat with m_ended := true } ∧
      (Execute (countingChild 1) { countingRepeat with m_ended := true }).m_command =
        (Execute (countingChild 1)
          (Initialize (countingChild 1) { countingRepeat with m_ended := true })).m_command ∧
      (Execute (countingChild 1) { countingRepeat with m_ended := true }).m_ended =
        (Execute (countingChild 1)
          (Initialize (countingChild 1) { countingRepeat with m_ended := true })).m_ended :=
  C18_execute_is_initialize_execute (countingChild 1) { countingRepeat with m_ended := true } rfl

/-- C17: after `Initialize` and `n` calls of `Execute`, `m_ended` is true
exactly when the completion query answered true in the most recent `Execute`
(never before the first one); and over the activation so far the number of
child `Initialize` calls is the number of child `End` calls when `m_ended` is
true, and one more when it is false. -/
theorem C17_activation_invariant (v : CommandHooks σ) (self : RepeatCommand σ) (n : Nat) :
    ((activation v self n).m_ended = true ↔
        HookCall.IsFinished true ∈ tickHooks v self n) ∧
      (hooksDuring (fun s => activation v s n) self).count HookCall.Initialize =
        (hooksDuring (fun s => activation v s n) self).countP HookCall.isEnd +
          (if (activation v self n).m_ended then 0 else 1) ∧
      (hooksDuring (fun s => activation v s n) self).count HookCall.Initialize -
          (hooksDuring (fun s => activation v s n) self).countP HookCall.isEnd =
        (if (activation v self n).m_ended then 0 else 1) := by
  have hFlag : (activation v self n).m_ended = true ↔
      HookCall.IsFinished true ∈ tickHooks v self n := by
    cases n with
    | zero =>
      show (Initialize v self).m_ended = true ↔ HookCall.IsFinished true ∈ ([] : List HookCall)
      rw [m_ended_Initialize]
      simp
    | succ m =>
      rw [isFinished_true_mem_tickHooks]
      show (Execute v (activation v self m)).m_ended = true ↔ _
      rw [m_ended_Execute]
  have hCount : (hooksDuring (fun s => activation v s n) self).count HookCall.Initialize =
      (hooksDuring (fun s => activation v s n) self).countP HookCall.isEnd +
        (if (activation v self n).m_ended then 0 else 1) := by
    clear hFlag
    induction n with
    | zero =>
      rw [hooksDuring_activation_zero]
      show _ = _ + (if (Initialize v self).m_ended = true then 0 else 1)
      rw [m_ended_Initialize]
      decide
    | succ m ih =>
      rw [hooksDuring_activation_succ, List.count_append, List.countP_append, ih,
        hooksDuring_Execute]
      show _ = _ + (if (Execute v (activation v self m)).m_ended = true then 0 else 1)
      rw [m_ended_Execute]
      cases (activation v self m).m_ended <;> cases childFinishes v (activation v self m) <;>
        simp [HookCall.isEnd]
  refine ⟨hFlag, hCount, ?_⟩
  rw [hCount]
  omega

/-- The activity of the child after two stretches of a log. -/
theorem activeAfter_append (a : Bool) (l₁ l₂ : List HookCall) :
    activeAfter a (l₁ ++ l₂) = activeAfter (activeAfter a l₁) l₂ := by
  induction l₁ generalizing a with
  | nil => rfl
  | cons h t ih => cases h <;> simp [activeAfter, ih]

/-- The order of starts and steps over two stretches of a log. -/
theorem startsAndStepsInOrder_append (a : Bool) (l₁ l₂ : List HookCall) :
    startsAndStepsInOrder a (l₁ ++ l₂) =
      (startsAndStepsInOrder a l₁ && startsAndStepsInOrder (activeAfter a l₁) l₂) := by
  induction l₁ generalizing a with
  | nil => simp [startsAndStepsInOrder, activeAfter]
  | cons h t ih => cases h <;> simp [startsAndStepsInOrder, activeAfter, ih, Bool.and_assoc]

/-- One `Execute` of the decorator, on a child that is active exactly when no
restart is pending: starts and steps are in order, and afterwards the child is
again active exactly when no restart is pending. -/
theorem startsAndStepsInOrder_Execute (v : CommandHooks σ) (self : RepeatCommand σ) :
    startsAndStepsInOrder (!self.m_ended) (hooksDuring (Execute v) self) = true ∧
      activeAfter (!self.m_ended) (hooksDuring (Execute v) self) =
        !(Execute v self).m_ended := by
  rw [hooksDuring_Execute, m_ended_Execute]
  cases self.m_ended <;> cases childFinishes v self <;> decide

/-- One activation so far, on a child that is not active when it starts: starts
and steps are in order, and the child is active exactly when no restart is
pending. -/
theorem startsAndStepsInOrder_activation (v : CommandHooks σ) (self : RepeatCommand σ)
    (n : Nat) :
    startsAndStepsInOrder false (hooksDuring (fun s => activation v s n) self) = true ∧
      activeAfter false (hooksDuring (fun s => activation v s n) self) =
        !(activation v self n).m_ended := by
  induction n with
  | zero =>
    rw [hooksDuring_activation_zero]
    show _ ∧ _ = !(Initialize v self).m_ended
    rw [m_ended_Initialize]
    decide
  | succ m ih =>
    obtain ⟨ih1, ih2⟩ := ih
    obtain ⟨h1, h2⟩ := startsAndStepsInOrder_Execute v (activation v self m)
    rw [hooksDuring_activation_succ, startsAndStepsInOrder_append, activeAfter_append, ih1, ih2,
      h1, h2]
    exact ⟨rfl, rfl⟩

/-- The log after the decorator's `End`. -/
theorem calls_End (v : CommandHooks σ) (b : Bool) (self : RepeatCommand σ) :
    (End v b self).calls = self.calls ++ [HookCall.End b] := rfl

/-- The child hooks of one whole activation: those of `Initialize` and the
`Execute` calls, then the `End` of the deactivation. -/
theorem hooksDuring_End_activation (v : CommandHooks σ) (self : RepeatCommand σ) (n : Nat)
    (b : Bool) :
    hooksDuring (fun s => End v b (activation v s n)) self =
      hooksDuring (fun s => activation v s n) self ++ [HookCall.End b] := by
  show ((End v b (activation v self n)).calls).drop _ = _
  rw [calls_End, calls_activation, List.append_assoc, List.drop_left]

/-- The log of a sequence of activations extends the log it started from by the
hooks of these activations. -/
theorem calls_activations (v : CommandHooks σ) (runs : List (Nat × Bool))
    (self : RepeatCommand σ) :
    (activations v self runs).calls =
      self.calls ++ hooksDuring (fun s => activations v s runs) self := by
  have key : ∃ H, (activations v self runs).calls = self.calls ++ H := by
    induction runs generalizing self with
    | nil => exact ⟨[], by simp [activations]⟩
    | cons r rest ih =>
      obtain ⟨H, hH⟩ := ih (End v r.2 (activation v self r.1))
      refine ⟨hooksDuring (fun s => activation v s r.1) self ++ [HookCall.End r.2] ++ H, ?_⟩
      show (activations v (End v r.2 (activation v self r.1)) rest).calls = _
      rw [hH, calls_End, calls_activation]
      simp
  obtain ⟨H, hH⟩ := key
  unfold hooksDuring
  rw [hH, List.drop_left]

/-- The child hooks of a sequence of activations: those of the first activation,
then those of the rest. -/
theorem hooksDuring_activations_cons (v : CommandHooks σ) (r : Nat × Bool)
    (rest : List (Nat × Bool)) (self : RepeatCommand σ) :
    hooksDuring (fun s => activations v s (r :: rest)) self =
      hooksDuring (fun s => activation v s r.1) self ++ [HookCall.End r.2] ++
        hooksDuring (fun s => activations v s rest) (End v r.2 (activation v self r.1)) := by
  show ((activations v (End v r.2 (activation v self r.1)) rest).calls).drop _ = _
  rw [calls_activations, calls_End, calls_activation]
  simp

/-- C15: over any sequence of activations of the decorator (each one
`Initialize`, some number of `Execute` calls, `End(b)`), started with a child
that is not active, and also when a further activation is under way after them:
every `Initialize` of the child comes when the child is not active (not between
an `Initialize` and the next `End`), and every `Execute` of the child comes
while it is active (after an `Initialize` with no `End` since); after complete
activations the child is not active. -/
theorem C15_start_and_step_in_order (v : CommandHooks σ) (self : RepeatCommand σ)
    (runs : List (Nat × Bool)) (n : Nat) :
    startsAndStepsInOrder false (hooksDuring (fun s => activations v s runs) self) = true ∧
      activeAfter false (hooksDuring (fun s => activations v s runs) self) = false ∧
      startsAndStepsInOrder false
        (hooksDuring (fun s => activations v s runs) self ++
          hooksDuring (fun s => activation v s n) (activations v self runs)) = true := by
  have hRuns : ∀ (runs : List (Nat × Bool)) (self : RepeatCommand σ),
      startsAndStepsInOrder false (hooksDuring (fun s => activations v s runs) self) = true ∧
        activeAfter false (hooksDuring (fun s => activations v s runs) self) = false := by
    intro runs
    induction runs with
    | nil =>
      intro self
      have : hooksDuring (fun s => activations v s []) self = [] := by
        simp [hooksDuring, activations]
      rw [this]
      exact ⟨rfl, rfl⟩
    | cons r rest ih =>
      intro self
      obtain ⟨h1, h2⟩ := startsAndStepsInOrder_activation v self r.1
      obtain ⟨i1, i2⟩ := ih (End v r.2 (activation v self r.1))
      have hEnd : ∀ a : Bool, activeAfter a [HookCall.End r.2] = false := by
        intro a; cases a <;> rfl
      have hEnd2 : ∀ a : Bool, startsAndStepsInOrder a [HookCall.End r.2] = true := by
        intro a; cases a <;> rfl
      rw [hooksDuring_activations_cons]
      simp only [startsAndStepsInOrder_append, activeAfter_append, h1, hEnd, hEnd2, i1, i2]
      exact ⟨rfl, trivial⟩
  obtain ⟨h1, h2⟩ := hRuns runs self
  refine ⟨h1, h2, ?_⟩
  rw [startsAndStepsInOrder_append, h1, h2,
    (startsAndStepsInOrder_activation v (activations v self runs) n).1]
  rfl

/-- The check of C15 is not met by every log: it rejects a second `Initialize`
of an active child and an `Execute` of a child that is not active. -/
theorem startsAndStepsInOrder_rejects :
    startsAndStepsInOrder false [HookCall.Initialize, HookCall.Initialize] = false ∧
      startsAndStepsInOrder false [HookCall.Execute] = false ∧
      startsAndStepsInOrder false
        [HookCall.Initialize, HookCall.End false, HookCall.Execute] = false := by
  decide

/-- When the decorator is deactivated while a restart is pending, the log of the
activation ends with the `End(false)` of the last tick followed by the `End` of
the deactivation. -/
theorem hooksDuring_End_restart_pending (v : CommandHooks σ) (self : RepeatCommand σ)
    (n : Nat) (b : Bool) (hPending : (activation v self n).m_ended = true) :
    ∃ before, hooksDuring (fun s => End v b (activation v s n)) self =
      before ++ [HookCall.End false, HookCall.End b] := by
  cases n with
  | zero =>
    have : (activation v self 0).m_ended = false := m_ended_Initialize v self
    rw [this] at hPending
    cases hPending
  | succ m =>
    have hfin : childFinishes v (activation v self m) = true := by
      have : (Execute v (activation v self m)).m_ended = true := hPending
      rw [m_ended_Execute] at this
      exact this
    refine ⟨hooksDuring (fun s => activation v s m) self ++
      ((if (activation v self m).m_ended then [HookCall.Initialize] else []) ++
        [HookCall.Execute, HookCall.IsFinished true]), ?_⟩
    rw [hooksDuring_End_activation, hooksDuring_activation_succ, hooksDuring_Execute, hfin]
    simp

/-- C12, the code at a failing input: the decorator over a child that finishes
on its first `Execute`, driven by `Initialize`, one `Execute` and `End(true)`.
The child's `Initialize` is called once and is followed by two calls of the
child's `End`, the `End(false)` made by `Execute` and the `End(true)` made by
`RepeatCommand::End`. -/
theorem C12_end_called_twice :
    hooksDuring
        (fun s => End (countingChild 1) true (activation (countingChild 1) s 1))
        countingRepeat =
      [HookCall.Initialize, HookCall.Execute, HookCall.IsFinished true, HookCall.End false,
        HookCall.End true] ∧
      stopsPerStart
        (hooksDuring
          (fun s => End (countingChild 1) true (activation (countingChild 1) s 1))
          countingRepeat) = [2] ∧
      (activation (countingChild 1) countingRepeat 1).m_ended = true := by
  decide

/-- Over a child none of whose hooks fails, the decorator's hooks with failure
are the decorator's hooks without it, and no error leaves them. -/
theorem Throwing_ofTotal {ε : Type} (v : CommandHooks σ) (self : RepeatCommand σ) (b : Bool) :
    Throwing.Initialize (ThrowingHooks.ofTotal v : ThrowingHooks ε σ) self =
        (none, Initialize v self) ∧
      Throwing.Execute (ThrowingHooks.ofTotal v : ThrowingHooks ε σ) self =
        (none, Execute v self) ∧
      Throwing.End (ThrowingHooks.ofTotal v : ThrowingHooks ε σ) b self =
        (none, End v b self) := by
  refine ⟨rfl, ?_, rfl⟩
  unfold Throwing.Execute Execute Throwing.andThen Throwing.callInitialize Throwing.callExecute
    Throwing.callIsFinished Throwing.callEnd callInitialize callExecute callIsFinished callEnd
    ThrowingHooks.ofTotal
  cases self.m_ended <;> simp <;> split <;> simp_all

/-- C14: the child's `Initialize`, `Execute` and `End` may fail.  When the
child hook called by the decorator's `Initialize` or `End` fails with `e`, that
decorator hook fails with `e`.  When inside the decorator's `Execute` the
child's `Initialize` (restart pending), the child's `Execute` (with or without
a restart before it) or the child's `End(false)` (after a completion query
answering true) fails with `e`, then `Execute` fails with `e` and the failing
call is the last child hook of that `Execute`: the child hooks that would come
next are not invoked. -/
theorem C14_child_failure_propagates {ε : Type} (v : ThrowingHooks ε σ)
    (self : RepeatCommand σ) (e : ε) (b : Bool) :
    ((v.Initialize self.m_command).1 = some e →
        (Throwing.Initialize v self).1 = some e ∧
          hooksDuring (fun s => (Throwing.Initialize v s).2) self = [HookCall.Initialize]) ∧
      ((v.End b self.m_command).1 = some e →
        (Throwing.End v b self).1 = some e ∧
          hooksDuring (fun s => (Throwing.End v b s).2) self = [HookCall.End b]) ∧
      (self.m_ended = true → (v.Initialize self.m_command).1 = some e →
        (Throwing.Execute v self).1 = some e ∧
          hooksDuring (fun s => (Throwing.Execute v s).2) self = [HookCall.Initialize]) ∧
      (self.m_ended = false → (v.Execute self.m_command).1 = some e →
        (Throwing.Execute v self).1 = some e ∧
          hooksDuring (fun s => (Throwing.Execute v s).2) self = [HookCall.Execute]) ∧
      (self.m_ended = true → (v.Initialize self.m_command).1 = none →
        (v.Execute (v.Initialize self.m_command).2).1 = some e →
        (Throwing.Execute v self).1 = some e ∧
          hooksDuring (fun s => (Throwing.Execute v s).2) self =
            [HookCall.Initialize, HookCall.Execute]) ∧
      (self.m_ended = false → (v.Execute self.m_command).1 = none →
        (v.IsFinished (v.Execute self.m_command).2).1 = true →
        (v.End false (v.IsFinished (v.Execute self.m_command).2).2).1 = some e →
        (Throwing.Execute v self).1 = some e ∧
          hooksDuring (fun s => (Throwing.Execute v s).2) self =
            [HookCall.Execute, HookCall.IsFinished true, HookCall.End false]) ∧
      (self.m_ended = true → (v.Initialize self.m_command).1 = none →
        (v.Execute (v.Initialize self.m_command).2).1 = none →
        (v.IsFinished (v.Execute (v.Initialize self.m_command).2).2).1 = true →
        (v.End false
          (v.IsFinished (v.Execute (v.Initialize self.m_command).2).2).2).1 = some e →
        (Throwing.Execute v self).1 = some e ∧
          hooksDuring (fun s => (Throwing.Execute v s).2) self =
            [HookCall.Initialize, HookCall.Execute, HookCall.IsFinished true,
              HookCall.End false]) := by
  refine ⟨?_, ?_, ?_, ?_, ?_, ?_, ?_⟩
  · intro h
    simp [Throwing.Initialize, Throwing.callInitialize, hooksDuring, h]
  · intro h
    simp [Throwing.End, Throwing.callEnd, hooksDuring, h]
  · intro hE h
    simp [Throwing.Execute, Throwing.andThen, Throwing.callInitialize, hooksDuring, hE, h]
  · intro hE h
    simp [Throwing.Execute, Throwing.andThen, Throwing.callExecute, hooksDuring, hE, h]
  · intro hE h1 h2
    simp [Throwing.Execute, Throwing.andThen, Throwing.callInitialize, Throwing.callExecute,
      hooksDuring, hE, h1, h2]
  · intro hE h1 h2 h3
    simp [Throwing.Execute, Throwing.andThen, Throwing.callExecute, Throwing.callIsFinished,
      Throwing.callEnd, hooksDuring, hE, h1, h2, h3]
  · intro hE h1 h2 h3 h4
    simp [Throwing.Execute, Throwing.andThen, Throwing.callInitialize, Throwing.callExecute,
      Throwing.callIsFinished, Throwing.callEnd, hooksDuring, hE, h1, h2, h3, h4]

/-- C14 at concrete inputs: the faulty child, whose second `Execute` fails with
"jam" and whose `End(true)` fails with "stuck". -/
theorem C14_child_failure_propagates_witness :
    ((Throwing.Execute faultyChild (Throwing.Execute faultyChild countingRepeat).2).1 =
          some "jam" ∧
        hooksDuring (fun s => (Throwing.Execute faultyChild s).2)
          (Throwing.Execute faultyChild countingRepeat).2 = [HookCall.Execute]) ∧
      ((Throwing.End faultyChild true countingRepeat).1 = some "stuck" ∧
        hooksDuring (fun s => (Throwing.End faultyChild true s).2) countingRepeat =
          [HookCall.End true]) :=
  ⟨(C14_child_failure_propagates faultyChild (Throwing.Execute faultyChild countingRepeat).2
      "jam" true).2.2.2.1 rfl rfl,
   (C14_child_failure_propagates faultyChild countingRepeat "stuck" true).2.1 rfl⟩

end frc2
